import Mathlib

/-!
Verification of the `node-res` HTTP response helper library.

The library is a thin convenience layer over a platform HTTP response
object.  We shallowly embed the parts the claims are about:

* the mutable response target (`Res`): header map (Node stores header
  keys lowercased and looks them up case-insensitively), status code,
  whether the response was ended, the payload passed to `end`, and
  whether a stream was piped into it;
* JavaScript header values (string / number / string array) together
  with their JS truthiness, since the library guards several header
  writes with JS falsiness checks (`!res.getHeader(key)`,
  `!headers['content-type']`, `chunk && ...`);
* the body classifier `returnContentAndType` (src/utils.ts);
* `Response.prepare`, `Response.send`, `Response.safeHeader`,
  `Response.etag`, `Response.prepareJsonp` (src/Response.ts);
* the stream piping protocol `Response.stream` as a small event-driven
  state machine: the promise state, the `finished` flag and the number
  of `destroy(body)` calls, driven by the three registered handlers
  (stream `error`, stream `end`, `onFinished(res, ...)`).
-/

namespace NodeRes

/-- A JavaScript header value as accepted by `Response.header`:
a string, a number, or an array of strings (the source maps array
elements through `String` before storing, so the array variant holds
strings). -/
inductive HeaderValue where
  | str (s : String)
  | num (n : Int)
  | arr (l : List String)
deriving DecidableEq

/-- JS falsiness of a header value: the empty string and the number 0
are falsy; arrays (objects) are always truthy.  Used by the source's
`!res.getHeader(key)` and `!headers['content-type']` guards. -/
def HeaderValue.isFalsy : HeaderValue → Bool
  | .str s => s == ""
  | .num n => n == 0
  | .arr _ => false

/-- ASCII lower-casing of a character (Node lower-cases header names,
which are ASCII). -/
def lowerChar (c : Char) : Char :=
  if 65 ≤ c.toNat ∧ c.toNat ≤ 90 then Char.ofNat (c.toNat + 32) else c

/-- ASCII lower-casing of a header key, modelling Node's
case-insensitive header storage. -/
def lowerKey (s : String) : String := ⟨s.data.map lowerChar⟩

/-- Association-list lookup for the header map (keys are stored
lowercased). -/
def lookupHeader : List (String × HeaderValue) → String → Option HeaderValue
  | [], _ => none
  | (k, v) :: rest, key => if key = k then some v else lookupHeader rest key

/-- Remove every binding of a key from the header map. -/
def eraseHeader : List (String × HeaderValue) → String → List (String × HeaderValue)
  | [], _ => []
  | (k, v) :: rest, key =>
      if k = key then eraseHeader rest key else (k, v) :: eraseHeader rest key

/-- The serialized response content produced by the body classifier:
a string or a binary buffer (modelled as its list of bytes). -/
inductive Content where
  | str (s : String)
  | buf (bytes : List Nat)
deriving DecidableEq

/-- JS falsiness of a chunk: the empty string is falsy, a Buffer
(being an object) is always truthy.  Used by the source's
`chunk && !headers['content-length']` guard. -/
def Content.isFalsy : Content → Bool
  | .str s => s == ""
  | .buf _ => false

/-- `Buffer.byteLength(chunk)`: UTF-8 byte length for strings, the
buffer's length for buffers. -/
def byteLength : Content → Nat
  | .str s => s.utf8ByteSize
  | .buf bytes => bytes.length

/-- The response target: header map (lowercased keys), status code,
whether `end` was called, the payload handed to `end`, and whether a
stream was piped into the underlying transport. -/
structure Res where
  headers : List (String × HeaderValue)
  statusCode : Nat
  ended : Bool
  writtenBody : Option Content
  piped : Bool
deriving DecidableEq

/-- The request object; the library only inspects its method. -/
structure Req where
  method : String
deriving DecidableEq

/-- `Response.getHeader(res, key)` / Node's `res.getHeader`, which is
case-insensitive on the key. -/
def getHeaderVal (res : Res) (key : String) : Option HeaderValue :=
  lookupHeader res.headers (lowerKey key)

/-- `Response.header(res, key, value)`: `res.setHeader`, wiping any
existing value for the (case-insensitive) key. -/
def header (res : Res) (key : String) (v : HeaderValue) : Res :=
  { res with headers := (lowerKey key, v) :: eraseHeader res.headers (lowerKey key) }

/-- `Response.removeHeader(res, key)`. -/
def removeHeader (res : Res) (key : String) : Res :=
  { res with headers := eraseHeader res.headers (lowerKey key) }

/-- `Response.status(res, code)`: `res.statusCode = code`. -/
def status (res : Res) (code : Nat) : Res :=
  { res with statusCode := code }

/-- `Response.safeHeader(res, key, value)`: sets the header only when
`!res.getHeader(key)` holds, i.e. when the key is absent or its current
value is JS-falsy. -/
def safeHeader (res : Res) (key : String) (v : HeaderValue) : Res :=
  match getHeaderVal res key with
  | none => header res key v
  | some v0 => if v0.isFalsy then header res key v else res

/-- `Response.end(res, payload?)` (named `endRes` because `end` is a
Lean keyword): ends the response, recording the payload written. -/
def endRes (res : Res) (payload : Option Content) : Res :=
  { res with ended := true, writtenBody := payload }

/-- The falsiness test the source applies to a *snapshot* of
`res.getHeaders()` (a map with lowercased keys):
`!headers['content-type']` is true when the key is absent or its value
is JS-falsy. -/
def jsFalsyLookup (hs : List (String × HeaderValue)) (key : String) : Bool :=
  match lookupHeader hs key with
  | none => true
  | some v => v.isFalsy

/-- ECMAScript `\s` (WhiteSpace plus LineTerminator), used by the
classifier's `/^\s*</` test. -/
def isJsWhitespace (c : Char) : Bool :=
  c == ' ' || c == '\t' || c == '\n' || c.toNat == 0x0B || c.toNat == 0x0C ||
  c == '\r' || c.toNat == 0xA0 || c.toNat == 0x1680 ||
  (0x2000 ≤ c.toNat && c.toNat ≤ 0x200A) ||
  c.toNat == 0x2028 || c.toNat == 0x2029 || c.toNat == 0x202F ||
  c.toNat == 0x205F || c.toNat == 0x3000 || c.toNat == 0xFEFF

/-- The regular-expression test `/^\s*</.test(body)`: skip leading JS
whitespace, then require a `<`.  (The regex cannot match with fewer
whitespace characters consumed, since no whitespace character is `<`,
so greedy matching equals this recursion.) -/
def startsWithLtAfterWs : List Char → Bool
  | [] => false
  | c :: rest => if isJsWhitespace c then startsWithLtAfterWs rest else c == '<'

/-- A JSON-serializable JavaScript value (the plain-object bodies the
library accepts). -/
inductive Json where
  | null
  | bool (b : Bool)
  | num (n : Int)
  | str (s : String)
  | arr (elems : List Json)
  | obj (fields : List (String × Json))

/-- Hex digit used by `JSON.stringify`'s `\u00XX` escapes
(lowercase, as V8 prints them). -/
def hexDigit (n : Nat) : Char :=
  if n < 10 then Char.ofNat (48 + n) else Char.ofNat (87 + n)

/-- `JSON.stringify` escaping of one character inside a string literal:
quote, backslash, the named control escapes, `\u00XX` for the remaining
control characters; everything else (including U+2028/U+2029) is kept
verbatim. -/
def jsonEscapeChar (c : Char) : String :=
  if c = '"' then "\\\""
  else if c = '\\' then "\\\\"
  else if c = '\x08' then "\\b"
  else if c = '\t' then "\\t"
  else if c = '\n' then "\\n"
  else if c = '\x0c' then "\\f"
  else if c = '\r' then "\\r"
  else if c.toNat < 0x20 then
    "\\u00" ++ String.singleton (hexDigit (c.toNat / 16)) ++
      String.singleton (hexDigit (c.toNat % 16))
  else String.singleton c

/-- `JSON.stringify` rendering of a string literal body. -/
def jsonEscapeString (s : String) : String :=
  String.join (s.data.map jsonEscapeChar)

mutual

/-- `JSON.stringify` on the modelled JSON values. -/
def Json.stringify : Json → String
  | .null => "null"
  | .bool b => if b then "true" else "false"
  | .num n => toString n
  | .str s => "\"" ++ jsonEscapeString s ++ "\""
  | .arr l => "[" ++ String.intercalate "," (stringifyArr l) ++ "]"
  | .obj l => "\x7b" ++ String.intercalate "," (stringifyObj l) ++ "\x7d"

/-- `JSON.stringify` of the elements of an array. -/
def stringifyArr : List Json → List String
  | [] => []
  | j :: r => Json.stringify j :: stringifyArr r

/-- `JSON.stringify` of the fields of an object. -/
def stringifyObj : List (String × Json) → List String
  | [] => []
  | (k, v) :: r =>
      ("\"" ++ jsonEscapeString k ++ "\":" ++ Json.stringify v) :: stringifyObj r

end

/-- A body value passed to `send`/`prepare` other than a readable
stream: null/undefined, string, Buffer, number, boolean, or a
JSON-serializable plain object (spec §3 data model). -/
inductive Body where
  | nullB
  | str (s : String)
  | buf (bytes : List Nat)
  | num (n : Int)
  | bool (b : Bool)
  | obj (j : Json)

/-- The result of the body classifier: serialized content plus the
inferred media type (absent for unrecognized values). -/
structure ClassifiedBody where
  body : Content
  type : Option String
deriving DecidableEq

/-- `returnContentAndType` (src/utils.ts): classify a body value.
Strings keep their value with `text/html` when `/^\s*</` matches and
`text/plain` otherwise; Buffers pass through as
`application/octet-stream`; numbers and booleans are stringified as
`text/plain`; objects are JSON-stringified as `application/json`.
The `nullB` arm follows the JS source, where `typeof null === 'object'`
so null would be JSON-stringified to `"null"`; `prepare` and `send`
both short-circuit null before calling the classifier. -/
def returnContentAndType : Body → ClassifiedBody
  | .str s =>
      ⟨.str s, some (if startsWithLtAfterWs s.data then "text/html" else "text/plain")⟩
  | .buf bytes => ⟨.buf bytes, some "application/octet-stream"⟩
  | .num n => ⟨.str (toString n), some "text/plain"⟩
  | .bool b => ⟨.str (if b then "true" else "false"), some "text/plain"⟩
  | .obj j => ⟨.str j.stringify, some "application/json"⟩
  | .nullB => ⟨.str "null", some "application/json"⟩

/-- Modelled from the spec: the repository's status-code table
`methods` (methods.js, not present under src/) maps descriptive names
to HTTP status codes; `noContent` is the "no content" status 204. -/
def methods.noContent : Nat := 204

/-- Modelled from the spec: `methods.notModified` is the
"not modified" status 304 from the same status-code table. -/
def methods.notModified : Nat := 304

/-- The non-null arm of `Response.prepare`, applied to the classifier's
output: when the status code is 204 or 304 it removes `Content-Type`,
`Content-Length` and `Transfer-Encoding` and returns the content;
otherwise it snapshots `res.getHeaders()` and sets `Content-Type`
(when `type && !headers['content-type']`) and `Content-Length`
(when `chunk && !headers['content-length']`), then returns the
content. -/
def prepareClassified (res : Res) (ct : ClassifiedBody) : Res × Option Content :=
  if res.statusCode = methods.noContent ∨ res.statusCode = methods.notModified then
    let r1 := removeHeader res "Content-Type"
    let r2 := removeHeader r1 "Content-Length"
    let r3 := removeHeader r2 "Transfer-Encoding"
    (r3, some ct.body)
  else
    let headers0 := res.headers
    let r1 :=
      match ct.type with
      | some t =>
          if jsFalsyLookup headers0 "content-type" then
            header res "Content-Type" (.str (t ++ "; charset=utf-8"))
          else res
      | none => res
    let r2 :=
      if ct.body.isFalsy = false ∧ jsFalsyLookup headers0 "content-length" = true then
        header r1 "Content-Length" (.num (byteLength ct.body))
      else r1
    (r2, some ct.body)

/-- `Response.prepare(res, body)`: for null/undefined bodies it forces
status `methods.noContent`, removes `Content-Type`, `Content-Length`
and `Transfer-Encoding`, and returns null; otherwise it classifies the
body and proceeds as `prepareClassified`. -/
def prepare (res : Res) (body : Body) : Res × Option Content :=
  match body with
  | .nullB =>
      let r1 := status res methods.noContent
      let r2 := removeHeader r1 "Content-Type"
      let r3 := removeHeader r2 "Content-Length"
      let r4 := removeHeader r3 "Transfer-Encoding"
      (r4, none)
  | b => prepareClassified res (returnContentAndType b)

/-- The external `etag` package computes an entity tag from the body
chunk; modelled as an unspecified concrete function of the content
(the claims depend only on the header being derived from the prepared
content, not on the tag format). -/
def etagOf (c : Content) : String := "\"" ++ toString (byteLength c) ++ "\""

/-- `Response.etag(res, body)`: sets the `ETag` header to the tag
computed from the body chunk. -/
def etag (res : Res) (body : Content) : Res :=
  header res "ETag" (.str (etagOf body))

/-- One character of the JSONP separator escaping.  Faithful to
`two chained global `String.replace` calls on U+2028 and U+2029`: both
patterns are single characters and neither replacement string contains
either character, so the two sequential global replaces equal this
character-wise map. -/
def escapeSepChar (c : Char) : String :=
  if c = '\u2028' then "\\u2028"
  else if c = '\u2029' then "\\u2029"
  else String.singleton c

/-- Apply `escapeSepChar` across a character list. -/
def escapeSepsList : List Char → List Char
  | [] => []
  | c :: r => (escapeSepChar c).data ++ escapeSepsList r

/-- The JSONP escaping of U+2028/U+2029 in a serialized JSON string. -/
def escapeSeps (s : String) : String := ⟨escapeSepsList s.data⟩

/-- `Response.prepareJsonp(res, body, callbackFn)`: sets
`X-Content-Type-Options: nosniff`, safe-sets
`Content-Type: text/javascript; charset=utf-8`, JSON-stringifies the
body with U+2028/U+2029 escaped, and returns the guarded callback
invocation string. -/
def prepareJsonp (res : Res) (body : Json) (callbackFn : String) : Res × String :=
  let res1 := header res "X-Content-Type-Options" (.str "nosniff")
  let res2 := safeHeader res1 "Content-Type" (.str "text/javascript; charset=utf-8")
  let parsedBody := escapeSeps body.stringify
  (res2,
    "/**/ typeof " ++ callbackFn ++ " === \x27function\x27 && " ++ callbackFn ++
      "(" ++ parsedBody ++ ");")

/-- An error carried by a stream `error` event (or by the immediate
rejection for a non-pipeable body): Node errors have a `message` and an
optional `code` (e.g. `ENOENT`). -/
structure StreamErr where
  code : Option String
  message : String
deriving DecidableEq

/-- How the `Response.stream` promise settled. -/
inductive Settle where
  | resolved
  | rejected (e : StreamErr)
deriving DecidableEq

/-- The state of one `Response.stream` invocation: the `finished`
flag, how many times `destroy(body)` has been called, and the promise
settlement (settling is first-wins, per promise semantics). -/
structure PipeState where
  finished : Bool
  destroyCalls : Nat
  settled : Option Settle
deriving DecidableEq

/-- Settle the promise: a promise resolves or rejects at most once, so
a later settlement attempt leaves an already-settled state unchanged. -/
def settleWith (st : PipeState) (o : Settle) : PipeState :=
  match st.settled with
  | some _ => st
  | none => { st with settled := some o }

/-- The events that can reach the three handlers registered by
`Response.stream`: a stream `error`, the stream's `end`, and the
response finishing (`onFinished`). -/
inductive StreamEvent where
  | errorEv (e : StreamErr)
  | endEv
  | resFinishedEv
deriving DecidableEq

/-- Dispatch of one event to the handlers registered by
`Response.stream`:
* `error`: if `finished` return; else set `finished`, `destroy(body)`,
  and reject with the stream's error;
* `end`: resolve;
* `onFinished(res, ...)`: set `finished` and `destroy(body)`
  (this handler has no `finished` guard in the source). -/
def handleEvent (st : PipeState) : StreamEvent → PipeState
  | .errorEv e =>
      if st.finished then st
      else settleWith { st with finished := true, destroyCalls := st.destroyCalls + 1 }
        (.rejected e)
  | .endEv => settleWith st .resolved
  | .resFinishedEv => { st with finished := true, destroyCalls := st.destroyCalls + 1 }

/-- Run a sequence of events through the handlers, in order. -/
def runEvents (evs : List StreamEvent) (st : PipeState) : PipeState :=
  evs.foldl handleEvent st

/-- The state right after `Response.stream` registers its handlers. -/
def initPipe : PipeState := ⟨false, 0, none⟩

/-- The rejection value for a non-pipeable body:
`new Error('Body is not a valid stream')`. -/
def invalidStreamError : StreamErr := ⟨none, "Body is not a valid stream"⟩

/-- `Response.stream(res, body)` observed over the events `evs` the
stream and response emit. `pipeCapable` is the result of the source's
`typeof body.pipe === 'function'` check: if it fails, the promise is
rejected immediately with the descriptive error, no handler runs, and
the response is untouched; otherwise the handlers are registered,
`body.pipe(res)` starts writing through the transport (recorded by the
`piped` flag) and the events drive the handlers. -/
def streamPipe (res : Res) (pipeCapable : Bool) (evs : List StreamEvent) :
    Res × PipeState :=
  if pipeCapable then
    ({ res with piped := true }, runEvents evs initPipe)
  else
    (res, { initPipe with settled := some (.rejected invalidStreamError) })

/-- Count of response-completion events in a trace (`onFinished` fires
at most once per response, so realistic traces have count ≤ 1). -/
def countResFin : List StreamEvent → Nat
  | [] => 0
  | .resFinishedEv :: r => countResFin r + 1
  | _ :: r => countResFin r

/-- Accounting helper for the cleanup bound: the error handler can
still cause one destroy while `finished` is false, and none once it is
true. -/
def errBudget (st : PipeState) : Nat := if st.finished then 0 else 1

/-- A body accepted by `Response.send`: either a readable stream
(carrying the events its lifetime will emit) or a plain body value.
`send` dispatches on `body && typeof body.pipe === 'function'`. -/
inductive SendBody where
  | stream (evs : List StreamEvent)
  | plain (b : Body)

/-- The non-stream path of `Response.send`: prepare the body; if the
chunk is null/undefined or the request method is HEAD, end with no
payload; otherwise optionally set the `ETag` from the chunk and end
with the chunk. -/
def sendPlain (req : Req) (res : Res) (body : Body) (generateEtag : Bool) : Res :=
  let pr := prepare res body
  match pr.2 with
  | none => endRes pr.1 none
  | some c =>
      if req.method = "HEAD" then endRes pr.1 none
      else
        let res2 := if generateEtag then etag pr.1 c else pr.1
        endRes res2 (some c)

/-- `Response.send(req, res, body, generateEtag)`: stream bodies are
delegated to `Response.stream`; on rejection the `catch` handler sets
status 404 when `error.code === 'ENOENT'` and 500 otherwise and
re-sends the error's message (a string, hence the recursive `send`
call takes the non-stream path, inlined here as `sendPlain`); when the
promise does not reject, `send` itself performs no further writes.
Non-stream bodies go through `sendPlain`. -/
def send (req : Req) (res : Res) (body : SendBody) (generateEtag : Bool) : Res :=
  match body with
  | .stream evs =>
      let piped := streamPipe res true evs
      match piped.2.settled with
      | some (.rejected e) =>
          let res2 := status piped.1 (if e.code = some "ENOENT" then 404 else 500)
          sendPlain req res2 (.str e.message) generateEtag
      | _ => piped.1
  | .plain b => sendPlain req res b generateEtag

/-! ### Header-map lemmas -/

theorem lookupHeader_eraseHeader (hs : List (String × HeaderValue)) (k key : String) :
    lookupHeader (eraseHeader hs k) key =
      if key = k then none else lookupHeader hs key := by
  induction hs with
  | nil => simp [eraseHeader, lookupHeader]
  | cons p rest ih =>
    obtain ⟨a, v⟩ := p
    by_cases hak : a = k
    · subst hak
      by_cases hk : key = a
      · subst hk
        simp [eraseHeader, lookupHeader, ih]
      · simp [eraseHeader, lookupHeader, hk, ih]
    · by_cases hk : key = a
      · subst hk
        simp [eraseHeader, lookupHeader, hak, Ne.symm hak]
      · simp [eraseHeader, lookupHeader, hak, hk, ih]

theorem getHeaderVal_header (res : Res) (k key : String) (v : HeaderValue) :
    getHeaderVal (header res k v) key =
      if lowerKey key = lowerKey k then some v else getHeaderVal res key := by
  simp only [getHeaderVal, header, lookupHeader, lookupHeader_eraseHeader]
  by_cases h : lowerKey key = lowerKey k <;> simp [h]

theorem getHeaderVal_removeHeader (res : Res) (k key : String) :
    getHeaderVal (removeHeader res k) key =
      if lowerKey key = lowerKey k then none else getHeaderVal res key := by
  simp [getHeaderVal, removeHeader, lookupHeader_eraseHeader]

@[simp] theorem statusCode_header (res : Res) (k : String) (v : HeaderValue) :
    (header res k v).statusCode = res.statusCode := rfl

@[simp] theorem statusCode_removeHeader (res : Res) (k : String) :
    (removeHeader res k).statusCode = res.statusCode := rfl

@[simp] theorem statusCode_endRes (res : Res) (p : Option Content) :
    (endRes res p).statusCode = res.statusCode := rfl

@[simp] theorem statusCode_status (res : Res) (c : Nat) :
    (status res c).statusCode = c := rfl

@[simp] theorem statusCode_etag (res : Res) (c : Content) :
    (etag res c).statusCode = res.statusCode := rfl

@[simp] theorem writtenBody_header (res : Res) (k : String) (v : HeaderValue) :
    (header res k v).writtenBody = res.writtenBody := rfl

@[simp] theorem writtenBody_removeHeader (res : Res) (k : String) :
    (removeHeader res k).writtenBody = res.writtenBody := rfl

@[simp] theorem writtenBody_status (res : Res) (c : Nat) :
    (status res c).writtenBody = res.writtenBody := rfl

@[simp] theorem writtenBody_endRes (res : Res) (p : Option Content) :
    (endRes res p).writtenBody = p := rfl

@[simp] theorem writtenBody_etag (res : Res) (c : Content) :
    (etag res c).writtenBody = res.writtenBody := rfl

@[simp] theorem ended_endRes (res : Res) (p : Option Content) :
    (endRes res p).ended = true := rfl

@[simp] theorem getHeaderVal_status (res : Res) (c : Nat) (key : String) :
    getHeaderVal (status res c) key = getHeaderVal res key := rfl

@[simp] theorem getHeaderVal_endRes (res : Res) (p : Option Content) (key : String) :
    getHeaderVal (endRes res p) key = getHeaderVal res key := rfl

@[simp] theorem statusCode_safeHeader (res : Res) (k : String) (v : HeaderValue) :
    (safeHeader res k v).statusCode = res.statusCode := by
  unfold safeHeader
  cases getHeaderVal res k with
  | none => rfl
  | some v0 => by_cases h : v0.isFalsy <;> simp [h]

@[simp] theorem lowerKey_contentType : lowerKey "Content-Type" = "content-type" := by decide

@[simp] theorem lowerKey_contentLength :
    lowerKey "Content-Length" = "content-length" := by decide

@[simp] theorem lowerKey_transferEncoding :
    lowerKey "Transfer-Encoding" = "transfer-encoding" := by decide

@[simp] theorem lowerKey_etagKey : lowerKey "ETag" = "etag" := by decide

@[simp] theorem lowerKey_xcto :
    lowerKey "X-Content-Type-Options" = "x-content-type-options" := by decide

@[simp] theorem lowerKey_contentType_lower :
    lowerKey "content-type" = "content-type" := by decide

@[simp] theorem lowerKey_contentLength_lower :
    lowerKey "content-length" = "content-length" := by decide

@[simp] theorem lowerKey_transferEncoding_lower :
    lowerKey "transfer-encoding" = "transfer-encoding" := by decide

/-! ### Stream state-machine lemmas -/

@[simp] theorem destroyCalls_settleWith (st : PipeState) (o : Settle) :
    (settleWith st o).destroyCalls = st.destroyCalls := by
  unfold settleWith
  cases st.settled <;> rfl

@[simp] theorem finished_settleWith (st : PipeState) (o : Settle) :
    (settleWith st o).finished = st.finished := by
  unfold settleWith
  cases st.settled <;> rfl

theorem handleEvent_settled_some (st : PipeState) (ev : StreamEvent) (o : Settle)
    (h : st.settled = some o) : (handleEvent st ev).settled = some o := by
  cases ev with
  | errorEv e =>
    by_cases hf : st.finished
    · simpa [handleEvent, hf] using h
    · simp [handleEvent, hf, settleWith, h]
  | endEv => simp [handleEvent, settleWith, h]
  | resFinishedEv => simpa [handleEvent] using h

theorem runEvents_settled_some (evs : List StreamEvent) :
    ∀ st o, st.settled = some o → (runEvents evs st).settled = some o := by
  induction evs with
  | nil =>
    intro st o h
    simpa [runEvents] using h
  | cons ev rest ih =>
    intro st o h
    simp only [runEvents, List.foldl_cons]
    exact ih (handleEvent st ev) o (handleEvent_settled_some st ev o h)

theorem runEvents_resolved_mem (evs : List StreamEvent) :
    ∀ st, (runEvents evs st).settled = some .resolved →
      st.settled = some .resolved ∨ .endEv ∈ evs := by
  induction evs with
  | nil =>
    intro st h
    left
    simpa [runEvents] using h
  | cons ev rest ih =>
    intro st h
    rcases ih (handleEvent st ev) (by simpa [runEvents, List.foldl_cons] using h)
      with h' | h'
    · cases ev with
      | errorEv e =>
        by_cases hf : st.finished
        · left
          simpa [handleEvent, hf] using h'
        · rcases hs : st.settled with _ | o
          · exfalso
            simp [handleEvent, hf, settleWith, hs] at h'
          · left
            simp [handleEvent, hf, settleWith, hs] at h'
            rw [h']
      | endEv =>
        right
        simp
      | resFinishedEv =>
        left
        simpa [handleEvent] using h'
    · right
      exact List.mem_cons_of_mem _ h'

theorem runEvents_rejected_mem (evs : List StreamEvent) :
    ∀ st e, (runEvents evs st).settled = some (.rejected e) →
      st.settled = some (.rejected e) ∨ .errorEv e ∈ evs := by
  induction evs with
  | nil =>
    intro st e h
    left
    simpa [runEvents] using h
  | cons ev rest ih =>
    intro st e h
    rcases ih (handleEvent st ev) e (by simpa [runEvents, List.foldl_cons] using h)
      with h' | h'
    · cases ev with
      | errorEv e' =>
        by_cases hf : st.finished
        · left
          simpa [handleEvent, hf] using h'
        · rcases hs : st.settled with _ | o
          · right
            simp [handleEvent, hf, settleWith, hs] at h'
            simp [h']
          · left
            simp [handleEvent, hf, settleWith, hs] at h'
            rw [h']
      | endEv =>
        left
        rcases hs : st.settled with _ | o
        · exfalso
          simp [handleEvent, settleWith, hs] at h'
        · simp [handleEvent, settleWith, hs] at h'
          rw [h']
      | resFinishedEv =>
        left
        simpa [handleEvent] using h'
    · right
      exact List.mem_cons_of_mem _ h'

theorem runEvents_onlyResFin (evs : List StreamEvent) :
    ∀ st, (∀ ev ∈ evs, ev = .resFinishedEv) →
      (runEvents evs st).settled = st.settled := by
  induction evs with
  | nil =>
    intro st _
    simp [runEvents]
  | cons ev rest ih =>
    intro st hall
    have hev : ev = .resFinishedEv := hall ev (List.mem_cons_self _ _)
    subst hev
    rw [show runEvents (StreamEvent.resFinishedEv :: rest) st =
          runEvents rest (handleEvent st .resFinishedEv) from rfl,
      ih (handleEvent st .resFinishedEv) (fun e he => hall e (List.mem_cons_of_mem _ he))]
    rfl

theorem finished_handleEvent (st : PipeState) (ev : StreamEvent)
    (h : st.finished = true) : (handleEvent st ev).finished = true := by
  cases ev <;> simp [handleEvent, h]

theorem finished_runEvents (evs : List StreamEvent) :
    ∀ st, st.finished = true → (runEvents evs st).finished = true := by
  induction evs with
  | nil =>
    intro st h
    simpa [runEvents] using h
  | cons ev rest ih =>
    intro st h
    simp only [runEvents, List.foldl_cons]
    exact ih (handleEvent st ev) (finished_handleEvent st ev h)

theorem destroyCalls_handleEvent_le (st : PipeState) (ev : StreamEvent) :
    st.destroyCalls ≤ (handleEvent st ev).destroyCalls := by
  cases ev with
  | errorEv e =>
    by_cases hf : st.finished
    · simp [handleEvent, hf]
    · simp [handleEvent, hf]
  | endEv => simp [handleEvent]
  | resFinishedEv => simp [handleEvent]

theorem destroyCalls_runEvents_le (evs : List StreamEvent) :
    ∀ st, st.destroyCalls ≤ (runEvents evs st).destroyCalls := by
  induction evs with
  | nil =>
    intro st
    simp [runEvents]
  | cons ev rest ih =>
    intro st
    simp only [runEvents, List.foldl_cons]
    exact le_trans (destroyCalls_handleEvent_le st ev) (ih (handleEvent st ev))

theorem runEvents_resFin_destroys (evs : List StreamEvent) :
    ∀ st, .resFinishedEv ∈ evs →
      (runEvents evs st).finished = true ∧ 1 ≤ (runEvents evs st).destroyCalls := by
  induction evs with
  | nil =>
    intro st h
    exact absurd h (List.not_mem_nil _)
  | cons ev rest ih =>
    intro st hmem
    rcases List.mem_cons.mp hmem with he | he
    · subst he
      simp only [runEvents, List.foldl_cons]
      refine ⟨finished_runEvents rest _ (by simp [handleEvent]), ?_⟩
      have h1 : 1 ≤ (handleEvent st .resFinishedEv).destroyCalls := by
        simp [handleEvent]
      exact le_trans h1 (destroyCalls_runEvents_le rest _)
    · simp only [runEvents, List.foldl_cons]
      exact ih (handleEvent st ev) he

theorem destroy_invariant (evs : List StreamEvent) :
    ∀ st, (runEvents evs st).destroyCalls + errBudget (runEvents evs st) ≤
      st.destroyCalls + errBudget st + countResFin evs := by
  induction evs with
  | nil =>
    intro st
    simp [runEvents, countResFin]
  | cons ev rest ih =>
    intro st
    have h := ih (handleEvent st ev)
    have hstep : (handleEvent st ev).destroyCalls + errBudget (handleEvent st ev) +
        countResFin rest ≤ st.destroyCalls + errBudget st + countResFin (ev :: rest) := by
      cases ev with
      | errorEv e =>
        by_cases hf : st.finished
        · simp [handleEvent, hf, countResFin]
        · simp [handleEvent, hf, errBudget, countResFin]
      | endEv => simp [handleEvent, errBudget, countResFin]
      | resFinishedEv =>
        have h1 : (handleEvent st .resFinishedEv).destroyCalls = st.destroyCalls + 1 := rfl
        have h2 : errBudget (handleEvent st .resFinishedEv) = 0 := rfl
        have h3 : countResFin (.resFinishedEv :: rest) = countResFin rest + 1 := rfl
        rw [h1, h2, h3]
        omega
    have hrun : runEvents (ev :: rest) st = runEvents rest (handleEvent st ev) := by
      simp [runEvents, List.foldl_cons]
    rw [hrun]
    omega

/-! ### Prepare and send lemmas -/

theorem prepare_nonnull (res : Res) (b : Body) (hb : b ≠ .nullB) :
    prepare res b = prepareClassified res (returnContentAndType b) := by
  cases b with
  | nullB => exact absurd rfl hb
  | str s => rfl
  | buf l => rfl
  | num n => rfl
  | bool b => rfl
  | obj j => rfl

theorem snd_prepareClassified (res : Res) (ct : ClassifiedBody) :
    (prepareClassified res ct).2 = some ct.body := by
  simp only [prepareClassified]
  repeat' split
  all_goals rfl

theorem prepare_snd_nonnull (res : Res) (b : Body) (hb : b ≠ .nullB) :
    (prepare res b).2 = some (returnContentAndType b).body := by
  rw [prepare_nonnull res b hb]
  exact snd_prepareClassified res _

theorem statusCode_prepareClassified (res : Res) (ct : ClassifiedBody) :
    (prepareClassified res ct).1.statusCode = res.statusCode := by
  simp only [prepareClassified]
  repeat' split
  all_goals rfl

theorem statusCode_prepare_nonnull (res : Res) (b : Body) (hb : b ≠ .nullB) :
    (prepare res b).1.statusCode = res.statusCode := by
  rw [prepare_nonnull res b hb]
  exact statusCode_prepareClassified res _

theorem getHeaderVal_prepareClassified_etag (res : Res) (ct : ClassifiedBody) :
    getHeaderVal (prepareClassified res ct).1 "ETag" = getHeaderVal res "ETag" := by
  simp only [prepareClassified]
  repeat' split
  all_goals simp [getHeaderVal_header, getHeaderVal_removeHeader]

theorem getHeaderVal_prepare_etag (res : Res) (body : Body) :
    getHeaderVal (prepare res body).1 "ETag" = getHeaderVal res "ETag" := by
  cases body with
  | nullB => simp [prepare, getHeaderVal_removeHeader]
  | str s => exact getHeaderVal_prepareClassified_etag res _
  | buf l => exact getHeaderVal_prepareClassified_etag res _
  | num n => exact getHeaderVal_prepareClassified_etag res _
  | bool b => exact getHeaderVal_prepareClassified_etag res _
  | obj j => exact getHeaderVal_prepareClassified_etag res _

@[simp] theorem getHeaderVal_setPiped (res : Res) (key : String) :
    getHeaderVal { res with piped := true } key = getHeaderVal res key := rfl

theorem getHeaderVal_safeHeader_other (res : Res) (k key : String) (v : HeaderValue)
    (h : lowerKey key ≠ lowerKey k) :
    getHeaderVal (safeHeader res k v) key = getHeaderVal res key := by
  unfold safeHeader
  cases getHeaderVal res k with
  | none => rw [getHeaderVal_header, if_neg h]
  | some v0 =>
    by_cases hf : v0.isFalsy <;> simp [hf, getHeaderVal_header, if_neg h]

/-! ### Classifier characterization -/

theorem startsWithLtAfterWs_iff (l : List Char) :
    startsWithLtAfterWs l = true ↔
      ∃ p rest, l = p ++ '<' :: rest ∧ ∀ c ∈ p, isJsWhitespace c = true := by
  induction l with
  | nil =>
    simp only [startsWithLtAfterWs]
    constructor
    · intro h
      cases h
    · rintro ⟨p, rest, hpr, -⟩
      exact absurd hpr (by cases p <;> simp)
  | cons c rest ih =>
    by_cases hws : isJsWhitespace c = true
    · rw [show startsWithLtAfterWs (c :: rest) =
          if isJsWhitespace c then startsWithLtAfterWs rest else c == '<' from rfl,
        if_pos hws, ih]
      constructor
      · rintro ⟨p, r, hpr, hall⟩
        refine ⟨c :: p, r, by rw [hpr]; rfl, ?_⟩
        intro x hx
        rcases List.mem_cons.mp hx with h | h
        · subst h
          exact hws
        · exact hall x h
      · rintro ⟨p, r, hpr, hall⟩
        cases p with
        | nil =>
          simp only [List.nil_append, List.cons.injEq] at hpr
          obtain ⟨hc, -⟩ := hpr
          subst hc
          exact absurd hws (by decide)
        | cons a p' =>
          simp only [List.cons_append, List.cons.injEq] at hpr
          obtain ⟨-, hrest⟩ := hpr
          exact ⟨p', r, hrest, fun x hx => hall x (List.mem_cons_of_mem _ hx)⟩
    · rw [show startsWithLtAfterWs (c :: rest) =
          if isJsWhitespace c then startsWithLtAfterWs rest else c == '<' from rfl,
        if_neg hws]
      constructor
      · intro h
        have hc : c = '<' := by simpa using h
        exact ⟨[], rest, by rw [hc]; rfl, by simp⟩
      · rintro ⟨p, r, hpr, hall⟩
        cases p with
        | nil =>
          simp only [List.nil_append, List.cons.injEq] at hpr
          obtain ⟨hc, -⟩ := hpr
          simp [hc]
        | cons a p' =>
          simp only [List.cons_append, List.cons.injEq] at hpr
          obtain ⟨hac, -⟩ := hpr
          exact absurd (by rw [hac]; exact hall a (List.mem_cons_self _ _)) hws

/-! ### JSONP escaping -/

theorem escapeSepsList_no_seps (l : List Char) :
    ∀ c ∈ escapeSepsList l, c ≠ '\u2028' ∧ c ≠ '\u2029' := by
  induction l with
  | nil =>
    intro c hc
    cases hc
  | cons a r ih =>
    intro c hc
    rcases List.mem_append.mp hc with hc | hc
    · unfold escapeSepChar at hc
      by_cases h1 : a = '\u2028'
      · rw [if_pos h1] at hc
        have hd : ("\\u2028" : String).data = ['\\', 'u', '2', '0', '2', '8'] := rfl
        rw [hd] at hc
        fin_cases hc <;> exact ⟨by decide, by decide⟩
      · rw [if_neg h1] at hc
        by_cases h2 : a = '\u2029'
        · rw [if_pos h2] at hc
          have hd : ("\\u2029" : String).data = ['\\', 'u', '2', '0', '2', '9'] := rfl
          rw [hd] at hc
          fin_cases hc <;> exact ⟨by decide, by decide⟩
        · rw [if_neg h2] at hc
          have hd : (String.singleton a).data = [a] := rfl
          rw [hd] at hc
          have hca : c = a := List.mem_singleton.mp hc
          subst hca
          exact ⟨h1, h2⟩
    · exact ih c hc

/-! ### Claim theorems -/

/-- C7: for every string body, the classifier returns the string
unchanged, with inferred media type `text/html` exactly when the string
begins with `<` after optional leading (JS) whitespace, and
`text/plain` otherwise (the type is always one of the two). -/
theorem string_classifier_html_iff (s : String) :
    (returnContentAndType (.str s)).body = .str s ∧
    ((returnContentAndType (.str s)).type = some "text/html" ↔
      ∃ p rest, s.data = p ++ '<' :: rest ∧ ∀ c ∈ p, isJsWhitespace c = true) ∧
    ((returnContentAndType (.str s)).type = some "text/html" ∨
      (returnContentAndType (.str s)).type = some "text/plain") := by
  refine ⟨rfl, ?_, ?_⟩
  · rw [← startsWithLtAfterWs_iff]
    unfold returnContentAndType
    by_cases h : startsWithLtAfterWs s.data <;> simp [h]
  · unfold returnContentAndType
    by_cases h : startsWithLtAfterWs s.data <;> simp [h]

/-- C7 witness: `"<b>"` is classified as `text/html` via the
characterization. -/
theorem string_classifier_html_iff_witness :
    (returnContentAndType (.str "<b>")).type = some "text/html" :=
  (string_classifier_html_iff "<b>").2.1.mpr ⟨[], ['b', '>'], by decide, by simp⟩

/-- C6 counterexample: a response whose header map already contains the
value `""` for `x-powered-by` — an existing value — has that value
overwritten by `safeHeader`, because the source's guard
`!res.getHeader(key)` tests JS falsiness, not presence. -/
theorem safeHeader_overwrites_empty_value_cex :
    getHeaderVal ⟨[("x-powered-by", .str "")], 200, false, none, false⟩
      "x-powered-by" = some (.str "") ∧
    getHeaderVal
      (safeHeader ⟨[("x-powered-by", .str "")], 200, false, none, false⟩
        "x-powered-by" (.str "node")) "x-powered-by" = some (.str "node") :=
  ⟨by decide, by decide⟩

/-- C6 (amended): `safeHeader` never overwrites an existing *truthy*
header value — when the key currently maps to a value that is not
JS-falsy (not `""` and not `0`), the response is returned entirely
unchanged. -/
theorem safeHeader_preserves_truthy (res : Res) (key : String) (v v0 : HeaderValue)
    (hv : getHeaderVal res key = some v0) (ht : v0.isFalsy = false) :
    safeHeader res key v = res := by
  unfold safeHeader
  rw [hv]
  simp [ht]

/-- C6 witness: a truthy existing header survives `safeHeader`. -/
theorem safeHeader_preserves_truthy_witness :
    getHeaderVal ⟨[("x-foo", .str "bar")], 200, false, none, false⟩ "x-foo" =
      some (.str "bar") ∧
    safeHeader ⟨[("x-foo", .str "bar")], 200, false, none, false⟩ "x-foo"
      (.str "baz") = ⟨[("x-foo", .str "bar")], 200, false, none, false⟩ :=
  ⟨by decide,
    safeHeader_preserves_truthy ⟨[("x-foo", .str "bar")], 200, false, none, false⟩
      "x-foo" (.str "baz") (.str "bar") (by decide) (by decide)⟩

/-- C3 counterexample: the caller set status 420 before invoking
`send` with a null body, yet the response ends with status 204 —
`prepare` forces `methods.noContent` unconditionally, so `send` *does*
override a caller-set status for null bodies. -/
theorem send_null_overrides_status_cex :
    (⟨[], 420, false, none, false⟩ : Res).statusCode = 420 ∧
    (send ⟨"GET"⟩ ⟨[], 420, false, none, false⟩ (.plain .nullB) true).statusCode =
      204 :=
  ⟨rfl, by decide⟩

/-- C3 (amended): for every null or absent body, `send` ends the
response with no body, with status *forced* to 204 regardless of any
status the caller set before invocation, and with the `Content-Type`,
`Content-Length` and `Transfer-Encoding` headers absent. -/
theorem send_null_forces_204 (req : Req) (res : Res) (generateEtag : Bool) :
    (send req res (.plain .nullB) generateEtag).statusCode = 204 ∧
    (send req res (.plain .nullB) generateEtag).writtenBody = none ∧
    (send req res (.plain .nullB) generateEtag).ended = true ∧
    getHeaderVal (send req res (.plain .nullB) generateEtag) "Content-Type" = none ∧
    getHeaderVal (send req res (.plain .nullB) generateEtag) "Content-Length" = none ∧
    getHeaderVal (send req res (.plain .nullB) generateEtag) "Transfer-Encoding" =
      none := by
  have hsend : send req res (.plain .nullB) generateEtag =
      endRes (prepare res .nullB).1 none := rfl
  refine ⟨?_, ?_, ?_, ?_, ?_, ?_⟩ <;>
    simp [hsend, prepare, methods.noContent, getHeaderVal_removeHeader]

/-- C1 counterexample: within a single piping invocation, after a
stream error (one forced release, guarded) a subsequent response
completion releases the stream again — two `destroy` calls — because
the `onFinished` handler is not guarded by the `finished` flag. -/
theorem resFinished_handler_destroys_again_cex :
    (streamPipe ⟨[], 200, false, none, false⟩ true
      [.errorEv ⟨some "ENOENT", "boom"⟩, .resFinishedEv]).2.destroyCalls = 2 := by
  decide

/-- C1 (amended): the stream-error cleanup is guarded by the `finished`
flag and so contributes at most one forced release, but the
response-completion handler is unguarded — it always marks `finished`
and releases the stream (last conjunct).  Hence over any trace in which
response completion fires at most once (as `onFinished` guarantees),
resources are forcibly released at most twice, and whenever the
response completes the stream has been released and the invocation is
marked finished — a stream is never left open when the client
disconnects or the response ends before the stream is exhausted. -/
theorem stream_cleanup_bounded (res : Res) (evs : List StreamEvent)
    (hrf : countResFin evs ≤ 1) :
    (streamPipe res true evs).2.destroyCalls ≤ 2 ∧
    (streamPipe res true evs).2.destroyCalls ≤ 1 + countResFin evs ∧
    (.resFinishedEv ∈ evs →
      (streamPipe res true evs).2.finished = true ∧
      1 ≤ (streamPipe res true evs).2.destroyCalls) ∧
    (∀ st : PipeState, handleEvent st .resFinishedEv =
      { st with finished := true, destroyCalls := st.destroyCalls + 1 }) := by
  have hpipe : (streamPipe res true evs).2 = runEvents evs initPipe := by
    simp [streamPipe]
  have hinv := destroy_invariant evs initPipe
  have h0 : initPipe.destroyCalls = 0 := rfl
  have h1 : errBudget initPipe = 1 := rfl
  have hb : (runEvents evs initPipe).destroyCalls ≤ 1 + countResFin evs := by
    omega
  refine ⟨?_, ?_, ?_, fun st => rfl⟩
  · rw [hpipe]
    omega
  · rw [hpipe]
    exact hb
  · intro hm
    rw [hpipe]
    exact runEvents_resFin_destroys evs initPipe hm

/-- C1 witness: a concrete error-then-completion trace satisfies the
bound. -/
theorem stream_cleanup_bounded_witness :
    countResFin [.errorEv ⟨none, "boom"⟩, .resFinishedEv] ≤ 1 ∧
    (streamPipe ⟨[], 200, false, none, false⟩ true
      [.errorEv ⟨none, "boom"⟩, .resFinishedEv]).2.destroyCalls ≤ 2 :=
  ⟨by decide,
    (stream_cleanup_bounded ⟨[], 200, false, none, false⟩
      [.errorEv ⟨none, "boom"⟩, .resFinishedEv] (by decide)).1⟩

/-- C2: the stream-piping operation settles exactly once: it resolves
only when the stream emits `end` (first conjunct); it rejects only with
an error the stream emitted, or — when the input is not pipe-capable —
immediately with the descriptive `invalidStreamError`, leaving the
response untouched (second and third conjuncts); response completion
alone never settles the promise (fourth conjunct); and once settled the
outcome never changes, whatever events follow (fifth conjunct). -/
theorem stream_settlement_semantics (res : Res) (pipeCapable : Bool)
    (evs : List StreamEvent) :
    ((streamPipe res pipeCapable evs).2.settled = some .resolved →
      pipeCapable = true ∧ .endEv ∈ evs) ∧
    (∀ e, (streamPipe res pipeCapable evs).2.settled = some (.rejected e) →
      (pipeCapable = false ∧ e = invalidStreamError ∧
        (streamPipe res pipeCapable evs).1 = res) ∨ .errorEv e ∈ evs) ∧
    (pipeCapable = false →
      streamPipe res pipeCapable evs =
        (res, { finished := false, destroyCalls := 0,
                settled := some (.rejected invalidStreamError) })) ∧
    (pipeCapable = true → (∀ ev ∈ evs, ev = .resFinishedEv) →
      (streamPipe res pipeCapable evs).2.settled = none) ∧
    (∀ o evs2, (streamPipe res pipeCapable evs).2.settled = some o →
      (streamPipe res pipeCapable (evs ++ evs2)).2.settled = some o) := by
  cases pipeCapable with
  | false =>
    refine ⟨?_, ?_, ?_, ?_, ?_⟩
    · intro h
      exfalso
      simp [streamPipe, initPipe] at h
    · intro e h
      left
      simp only [streamPipe, if_neg (by simp : ¬(false = true))] at h
      refine ⟨rfl, ?_, rfl⟩
      have : Settle.rejected invalidStreamError = Settle.rejected e := by
        simpa [initPipe] using h
      exact (Settle.rejected.injEq _ _ ▸ this).symm
    · intro _
      rfl
    · intro h
      cases h
    · intro o evs2 h
      simpa [streamPipe] using h
  | true =>
    refine ⟨?_, ?_, ?_, ?_, ?_⟩
    · intro h
      refine ⟨rfl, ?_⟩
      rcases runEvents_resolved_mem evs initPipe (by simpa [streamPipe] using h)
        with h2 | h2
      · cases h2
      · exact h2
    · intro e h
      right
      rcases runEvents_rejected_mem evs initPipe e (by simpa [streamPipe] using h)
        with h2 | h2
      · cases h2
      · exact h2
    · intro h
      cases h
    · intro _ hall
      have h2 := runEvents_onlyResFin evs initPipe hall
      simpa [streamPipe, initPipe] using h2
    · intro o evs2 h
      have h2 : (runEvents evs initPipe).settled = some o := by
        simpa [streamPipe] using h
      have h3 : (runEvents (evs ++ evs2) initPipe).settled = some o := by
        rw [runEvents, List.foldl_append]
        exact runEvents_settled_some evs2 _ o h2
      simpa [streamPipe] using h3

/-- C2 witness: the promise resolves on `end`, which indeed belongs to
the trace. -/
theorem stream_settlement_semantics_witness :
    (streamPipe ⟨[], 200, false, none, false⟩ true [.endEv]).2.settled =
      some .resolved ∧ StreamEvent.endEv ∈ [StreamEvent.endEv] :=
  ⟨by decide,
    ((stream_settlement_semantics ⟨[], 200, false, none, false⟩ true
      [.endEv]).1 (by decide)).2⟩

/-- C4 counterexample: piping a stream that fails with a Node
`ENOENT` error yields status 404 but a body equal to the error's
*message* string (`error.message`, e.g.
`ENOENT: no such file or directory, open 'foo.txt'`), which is not the
platform's "file not found" error *code* string `ENOENT`. -/
theorem stream_error_body_is_message_cex :
    (send ⟨"GET"⟩ ⟨[], 200, false, none, false⟩
      (.stream [.errorEv ⟨some "ENOENT",
        "ENOENT: no such file or directory, open \x27foo.txt\x27"⟩])
      true).statusCode = 404 ∧
    (send ⟨"GET"⟩ ⟨[], 200, false, none, false⟩
      (.stream [.errorEv ⟨some "ENOENT",
        "ENOENT: no such file or directory, open \x27foo.txt\x27"⟩])
      true).writtenBody =
      some (.str "ENOENT: no such file or directory, open \x27foo.txt\x27") ∧
    ("ENOENT: no such file or directory, open \x27foo.txt\x27" : String) ≠
      "ENOENT" :=
  ⟨by decide, by decide, by decide⟩

/-- C4 (amended): when `send` is given a stream body whose piping
rejects with error `e`, it performs a secondary send of the error's
*message* with status 404 when `e.code` is `ENOENT` ("not found") and
500 for all other errors; so piping a stream for a missing file yields
status 404 with body equal to the error's message string. -/
theorem stream_error_secondary_send (req : Req) (res : Res) (generateEtag : Bool)
    (evs : List StreamEvent) (e : StreamErr)
    (hm : req.method ≠ "HEAD")
    (hrej : (runEvents evs initPipe).settled = some (.rejected e)) :
    (send req res (.stream evs) generateEtag).statusCode =
      (if e.code = some "ENOENT" then 404 else 500) ∧
    (send req res (.stream evs) generateEtag).writtenBody =
      some (.str e.message) ∧
    (send req res (.stream evs) generateEtag).ended = true := by
  have hset : (streamPipe res true evs).2.settled = some (.rejected e) := by
    simpa [streamPipe] using hrej
  have hsend : send req res (.stream evs) generateEtag =
      sendPlain req
        (status (streamPipe res true evs).1
          (if e.code = some "ENOENT" then 404 else 500))
        (.str e.message) generateEtag := by
    simp only [send]
    rw [hset]
  set res2 := status (streamPipe res true evs).1
    (if e.code = some "ENOENT" then 404 else 500) with hres2
  have hchunk : (prepare res2 (.str e.message)).2 =
      some (returnContentAndType (.str e.message)).body :=
    prepare_snd_nonnull res2 (.str e.message) (by simp)
  have hbody : (returnContentAndType (.str e.message)).body = .str e.message := rfl
  have hplain : sendPlain req res2 (.str e.message) generateEtag =
      endRes (if generateEtag then etag (prepare res2 (.str e.message)).1
        (.str e.message) else (prepare res2 (.str e.message)).1)
        (some (.str e.message)) := by
    simp only [sendPlain]
    rw [hbody] at hchunk
    rw [hchunk]
    simp [hm]
  have hstat : (prepare res2 (.str e.message)).1.statusCode = res2.statusCode :=
    statusCode_prepare_nonnull res2 (.str e.message) (by simp)
  rw [hsend, hplain]
  refine ⟨?_, rfl, rfl⟩
  by_cases hg : generateEtag <;> simp [hg, hstat, hres2]

/-- C4 witness: a concrete `ENOENT` rejection produces status 404. -/
theorem stream_error_secondary_send_witness :
    ((⟨"GET"⟩ : Req).method ≠ "HEAD") ∧
    (runEvents [.errorEv ⟨some "ENOENT", "missing"⟩] initPipe).settled =
      some (.rejected ⟨some "ENOENT", "missing"⟩) ∧
    (send ⟨"GET"⟩ ⟨[], 200, false, none, false⟩
      (.stream [.errorEv ⟨some "ENOENT", "missing"⟩]) true).statusCode = 404 := by
  refine ⟨by decide, by decide, ?_⟩
  have h := stream_error_secondary_send ⟨"GET"⟩ ⟨[], 200, false, none, false⟩ true
    [.errorEv ⟨some "ENOENT", "missing"⟩] ⟨some "ENOENT", "missing"⟩
    (by decide) (by decide)
  simpa using h.1

/-- C8: for every HEAD request, `send` passes no content bytes to the
response's `end`, regardless of the body value (stream bodies included:
the library ends the response without a payload whenever it ends it
itself; piped data flows through the transport, which suppresses
response bodies for HEAD requests at the platform level). -/
theorem head_request_no_body (req : Req) (res : Res) (body : SendBody)
    (generateEtag : Bool) (hm : req.method = "HEAD")
    (hw : res.writtenBody = none) :
    (send req res body generateEtag).writtenBody = none := by
  cases body with
  | plain b =>
    simp only [send, sendPlain]
    cases h2 : (prepare res b).2 with
    | none => simp
    | some c => simp [hm]
  | stream evs =>
    simp only [send]
    cases hset : (streamPipe res true evs).2.settled with
    | none => simp [streamPipe, hw]
    | some o =>
      cases o with
      | resolved => simp [streamPipe, hw]
      | rejected e =>
        set res2 := status (streamPipe res true evs).1
          (if e.code = some "ENOENT" then 404 else 500)
        simp only [sendPlain]
        cases h2 : (prepare res2 (.str e.message)).2 with
        | none => simp
        | some c => simp [hm]

/-- C8 witness: a HEAD request with a non-empty string body writes no
content. -/
theorem head_request_no_body_witness :
    ((⟨"HEAD"⟩ : Req).method = "HEAD") ∧
    ((⟨[], 200, false, none, false⟩ : Res).writtenBody = none) ∧
    (send ⟨"HEAD"⟩ ⟨[], 200, false, none, false⟩ (.plain (.str "hello"))
      true).writtenBody = none :=
  ⟨rfl, rfl,
    head_request_no_body ⟨"HEAD"⟩ ⟨[], 200, false, none, false⟩
      (.plain (.str "hello")) true rfl rfl⟩

/-- C5 counterexample: a response whose `Content-Type` header is
present with the (falsy) value `""` — hence not unset — still has
`Content-Type` set by `prepare`, because the source tests JS falsiness
of the header snapshot, not presence. -/
theorem prepare_overwrites_falsy_content_type_cex :
    getHeaderVal ⟨[("content-type", .str "")], 200, false, none, false⟩
      "Content-Type" = some (.str "") ∧
    getHeaderVal (prepare ⟨[("content-type", .str "")], 200, false, none, false⟩
      (.str "hi")).1 "Content-Type" = some (.str "text/plain; charset=utf-8") :=
  ⟨by decide, by decide⟩

/-- C5 (amended): for every non-null body, `prepare` returns the
classified content, and sets `Content-Type` (from the classifier's
type, with `; charset=utf-8`) only if it is currently unset *or set to
a JS-falsy value* such as the empty string, and `Content-Length` (the
byte length of the content) under the same unset-or-falsy guard (and
only for non-empty content), leaving each header unchanged when its
current value is truthy; except that when the current status code is
204 or 304 it instead removes `Content-Type`, `Content-Length` and
`Transfer-Encoding`, leaves the status unchanged, and still returns the
serialized content. -/
theorem prepare_header_setting (res : Res) (body : Body) (hb : body ≠ .nullB) :
    (prepare res body).2 = some (returnContentAndType body).body ∧
    (res.statusCode = 204 ∨ res.statusCode = 304 →
      getHeaderVal (prepare res body).1 "Content-Type" = none ∧
      getHeaderVal (prepare res body).1 "Content-Length" = none ∧
      getHeaderVal (prepare res body).1 "Transfer-Encoding" = none ∧
      (prepare res body).1.statusCode = res.statusCode) ∧
    (¬(res.statusCode = 204 ∨ res.statusCode = 304) →
      (∀ t, (returnContentAndType body).type = some t →
        jsFalsyLookup res.headers "content-type" = true →
        getHeaderVal (prepare res body).1 "Content-Type" =
          some (.str (t ++ "; charset=utf-8"))) ∧
      (jsFalsyLookup res.headers "content-type" = false →
        getHeaderVal (prepare res body).1 "Content-Type" =
          getHeaderVal res "Content-Type") ∧
      ((returnContentAndType body).body.isFalsy = false →
        jsFalsyLookup res.headers "content-length" = true →
        getHeaderVal (prepare res body).1 "Content-Length" =
          some (.num (byteLength (returnContentAndType body).body))) ∧
      (jsFalsyLookup res.headers "content-length" = false →
        getHeaderVal (prepare res body).1 "Content-Length" =
          getHeaderVal res "Content-Length")) := by
  rw [prepare_nonnull res body hb]
  set ct := returnContentAndType body with hct
  refine ⟨snd_prepareClassified res ct, ?_, ?_⟩
  · intro hs
    have hcond : res.statusCode = methods.noContent ∨
        res.statusCode = methods.notModified := by
      simpa [methods.noContent, methods.notModified] using hs
    have heq : prepareClassified res ct =
        (removeHeader (removeHeader (removeHeader res "Content-Type")
          "Content-Length") "Transfer-Encoding", some ct.body) := by
      simp only [prepareClassified, if_pos hcond]
    rw [heq]
    refine ⟨?_, ?_, ?_, ?_⟩ <;> simp [getHeaderVal_removeHeader]
  · intro hns
    have hcond : ¬(res.statusCode = methods.noContent ∨
        res.statusCode = methods.notModified) := by
      simpa [methods.noContent, methods.notModified] using hns
    refine ⟨?_, ?_, ?_, ?_⟩
    · intro t htype hfal
      simp only [prepareClassified]
      rw [if_neg hcond]
      simp only [htype, hfal, if_pos rfl]
      split
      · simp [getHeaderVal_header]
      · simp [getHeaderVal_header]
    · intro hfal
      simp only [prepareClassified]
      rw [if_neg hcond]
      cases htype : ct.type with
      | none =>
        simp only [htype]
        split
        · simp [getHeaderVal_header]
        · rfl
      | some t =>
        simp only [htype, hfal]
        split
        · simp [getHeaderVal_header]
        · rfl
    · intro hbf hfal
      simp only [prepareClassified]
      rw [if_neg hcond]
      have hpos : ct.body.isFalsy = false ∧
          jsFalsyLookup res.headers "content-length" = true := ⟨hbf, hfal⟩
      simp only [if_pos hpos]
      simp [getHeaderVal_header]
    · intro hfal
      simp only [prepareClassified]
      rw [if_neg hcond]
      have hneg : ¬(ct.body.isFalsy = false ∧
          jsFalsyLookup res.headers "content-length" = true) := by
        simp [hfal]
      simp only [if_neg hneg]
      cases htype : ct.type with
      | none => rfl
      | some t =>
        simp only [htype]
        split
        · simp [getHeaderVal_header]
        · rfl

/-- C5 witness: preparing `"hi"` on a fresh response returns the
content and sets the derived `Content-Type`. -/
theorem prepare_header_setting_witness :
    (prepare ⟨[], 200, false, none, false⟩ (.str "hi")).2 = some (.str "hi") ∧
    getHeaderVal (prepare ⟨[], 200, false, none, false⟩ (.str "hi")).1
      "Content-Type" = some (.str "text/plain; charset=utf-8") := by
  have h := prepare_header_setting ⟨[], 200, false, none, false⟩ (.str "hi")
    (by simp)
  refine ⟨?_, ?_⟩
  · simpa using h.1
  · have h3 := (h.2.2 (by simp)).1 "text/plain" (by decide) (by decide)
    simpa using h3

/-- C9 counterexample: a response whose `Content-Type` header is
present with the (falsy) value `""` — hence not unset — has it
overwritten by `prepareJsonp`, since `safeHeader` tests JS falsiness
rather than presence. -/
theorem prepareJsonp_overwrites_falsy_content_type_cex :
    getHeaderVal ⟨[("content-type", .str "")], 200, false, none, false⟩
      "Content-Type" = some (.str "") ∧
    getHeaderVal (prepareJsonp ⟨[("content-type", .str "")], 200, false,
      none, false⟩ .null "cb").1 "Content-Type" =
      some (.str "text/javascript; charset=utf-8") :=
  ⟨by decide, by decide⟩

/-- C9 (amended): for every JSON-serializable body and callback name,
`prepareJsonp` returns exactly the guarded callback-invocation string
around the JSON serialization with U+2028/U+2029 escaped (the escaped
serialization contains neither separator character), sets
`X-Content-Type-Options: nosniff`, and sets
`Content-Type: text/javascript; charset=utf-8` only if `Content-Type`
is unset or currently holds a JS-falsy value — an existing truthy
value is preserved. -/
theorem prepareJsonp_output (res : Res) (body : Json) (cb : String) :
    (prepareJsonp res body cb).2 =
      "/**/ typeof " ++ cb ++ " === \x27function\x27 && " ++ cb ++ "(" ++
        escapeSeps body.stringify ++ ");" ∧
    (∀ c ∈ (escapeSeps body.stringify).data, c ≠ '\u2028' ∧ c ≠ '\u2029') ∧
    getHeaderVal (prepareJsonp res body cb).1 "X-Content-Type-Options" =
      some (.str "nosniff") ∧
    (getHeaderVal res "Content-Type" = none →
      getHeaderVal (prepareJsonp res body cb).1 "Content-Type" =
        some (.str "text/javascript; charset=utf-8")) ∧
    (∀ v, getHeaderVal res "Content-Type" = some v → v.isFalsy = false →
      getHeaderVal (prepareJsonp res body cb).1 "Content-Type" = some v) := by
  have hfst : (prepareJsonp res body cb).1 =
      safeHeader (header res "X-Content-Type-Options" (.str "nosniff"))
        "Content-Type" (.str "text/javascript; charset=utf-8") := rfl
  refine ⟨rfl, ?_, ?_, ?_, ?_⟩
  · intro c hc
    exact escapeSepsList_no_seps body.stringify.data c hc
  · rw [hfst, getHeaderVal_safeHeader_other _ _ _ _ (by decide)]
    simp [getHeaderVal_header]
  · intro h
    rw [hfst]
    have h1 : getHeaderVal (header res "X-Content-Type-Options" (.str "nosniff"))
        "Content-Type" = none := by
      rw [getHeaderVal_header, if_neg (by decide)]
      exact h
    unfold safeHeader
    rw [h1]
    simp [getHeaderVal_header]
  · intro v hv hf
    rw [hfst]
    have h1 : getHeaderVal (header res "X-Content-Type-Options" (.str "nosniff"))
        "Content-Type" = some v := by
      rw [getHeaderVal_header, if_neg (by decide)]
      exact hv
    unfold safeHeader
    rw [h1]
    simp [hf, h1]

/-- C9 witness: with `Content-Type` unset, `prepareJsonp` sets it. -/
theorem prepareJsonp_output_witness :
    getHeaderVal (⟨[], 200, false, none, false⟩ : Res) "Content-Type" = none ∧
    getHeaderVal (prepareJsonp ⟨[], 200, false, none, false⟩ .null "cb").1
      "Content-Type" = some (.str "text/javascript; charset=utf-8") :=
  ⟨by decide,
    (prepareJsonp_output ⟨[], 200, false, none, false⟩ .null "cb").2.2.2.1
      (by decide)⟩

/-- C10: `send` sets an `ETag` header computed from the prepared
content exactly when the prepared chunk is non-null, the request method
is not HEAD, and etag generation is enabled (first conjunct); in all
other cases — null chunk, HEAD, or generation disabled — the `ETag`
header is left exactly as it was (second conjunct); and the stream path
adds no `ETag` on HEAD requests either (third conjunct). -/
theorem send_etag_exactly_when (req : Req) (res : Res) (body : Body)
    (generateEtag : Bool) :
    (∀ c, (prepare res body).2 = some c → req.method ≠ "HEAD" →
      generateEtag = true →
      getHeaderVal (send req res (.plain body) generateEtag) "ETag" =
        some (.str (etagOf c))) ∧
    ((prepare res body).2 = none ∨ req.method = "HEAD" ∨ generateEtag = false →
      getHeaderVal (send req res (.plain body) generateEtag) "ETag" =
        getHeaderVal res "ETag") ∧
    (∀ evs, req.method = "HEAD" →
      getHeaderVal (send req res (.stream evs) generateEtag) "ETag" =
        getHeaderVal res "ETag") := by
  refine ⟨?_, ?_, ?_⟩
  · intro c hc hm hg
    subst hg
    simp only [send, sendPlain]
    rw [hc]
    simp [hm, etag, getHeaderVal_header]
  · intro h
    rcases h with hc | hm | hg
    · simp only [send, sendPlain]
      rw [hc]
      simp [getHeaderVal_prepare_etag]
    · simp only [send, sendPlain]
      cases hc : (prepare res body).2 with
      | none => simp [getHeaderVal_prepare_etag]
      | some c => simp [hm, getHeaderVal_prepare_etag]
    · subst hg
      simp only [send, sendPlain]
      cases hc : (prepare res body).2 with
      | none => simp [getHeaderVal_prepare_etag]
      | some c =>
        by_cases hm : req.method = "HEAD" <;>
          simp [hm, getHeaderVal_prepare_etag]
  · intro evs hm
    simp only [send]
    cases hset : (streamPipe res true evs).2.settled with
    | none => simp [streamPipe, getHeaderVal]
    | some o =>
      cases o with
      | resolved => simp [streamPipe, getHeaderVal]
      | rejected e =>
        have hc := prepare_snd_nonnull (status (streamPipe res true evs).1
          (if e.code = some "ENOENT" then 404 else 500)) (.str e.message)
          (by simp)
        simp only [sendPlain]
        rw [hc]
        simp [hm, getHeaderVal_prepare_etag, streamPipe]

/-- C10 witness: with status 304 (headers stripped by `prepare`), a
GET request with etag generation still gets an `ETag` from the
prepared content. -/
theorem send_etag_exactly_when_witness :
    (prepare ⟨[], 304, false, none, false⟩ (.str "x")).2 = some (.str "x") ∧
    ((⟨"GET"⟩ : Req).method ≠ "HEAD") ∧
    getHeaderVal (send ⟨"GET"⟩ ⟨[], 304, false, none, false⟩
      (.plain (.str "x")) true) "ETag" = some (.str (etagOf (.str "x"))) := by
  refine ⟨by decide, by decide, ?_⟩
  exact (send_etag_exactly_when ⟨"GET"⟩ ⟨[], 304, false, none, false⟩
    (.str "x") true).1 (.str "x") (by decide) (by decide) rfl

end NodeRes
